import Mathlib

/-!
Shallow embedding of the cubic smoothing B-spline library (BSpline.cpp).

Floats in the source are modelled as exact rationals (ℚ); int indices as ℤ.
The banded matrix is modelled as a total function on integer index pairs:
every read and write the source performs stays within the half-bandwidth-3
band, so the banded storage layout is immaterial to the properties proved
here.  The banded LU factorization and solve live in BSplineLU.h, which is
not part of src; where a claim needs them they are modelled from the spec
(see LU_solve_banded) or abstracted by a success flag (see setDomainOKFlag).
-/

namespace BSplineModel

/-- C cast (int)(q) for a rational: truncation toward zero. -/
def ctrunc (q : ℚ) : ℤ := if q < 0 then -(⌊-q⌋) else ⌊q⌋

/-- Inclusive list of integers lo, lo+1, ..., hi (empty when hi < lo),
the index set of a C loop `for (i = lo; i <= hi; ++i)`. -/
def intRange (lo hi : ℤ) : List ℤ := (List.range (hi + 1 - lo).toNat).map (fun k => lo + k)

/-- Sum of f over integers lo ≤ m < hi (exclusive upper bound),
as in a C accumulation loop `for (m = lo; m < hi; ++m)`. -/
def isum (lo hi : ℤ) (f : ℤ → ℚ) : ℚ := ((List.range (hi - lo).toNat).map (fun k => f (lo + k))).sum

/-- Sum of f over naturals lo ≤ k < hi. -/
def nsum (lo hi : ℕ) (f : ℕ → ℚ) : ℚ := ((List.range (hi - lo)).map (fun k => f (lo + k))).sum

/-- The configured state of a BSplineBase that the basis / matrix functions read:
node interval count M, domain minimum xmin, node spacing DX, penalty weight
alpha, and boundary condition type BC. -/
structure BSplineState where
  M : ℤ
  xmin : ℚ
  DX : ℚ
  alpha : ℚ
  BC : ℤ

/-- BSplineBase::BoundaryConditions, the fixed 3 x 4 coefficient table. -/
def BoundaryConditions : List (List ℚ) :=
  [[-4, -1, -1, -4],
   [0, 1, 1, 0],
   [2, -1, -1, 2]]

/-- BSplineBase::Beta.  Interior nodes (1 < m < M-1) give 0; edge nodes are
remapped (m >= M-1 maps via m - (M-3)) into a 0..3 column of the table row
selected by BC.  The source asserts 0 <= BC <= 2 and 0 <= m <= 3 after the
remap; out-of-range lookups (contract violations) default to 0 here. -/
def Beta (p : BSplineState) (m : ℤ) : ℚ :=
  if 1 < m ∧ m < p.M - 1 then 0
  else
    let m2 := if p.M - 1 ≤ m then m - (p.M - 3) else m
    (BoundaryConditions.getD p.BC.toNat []).getD m2.toNat 0

/-- The qparts table inside BSplineBase::qDelta: products of first
derivatives of the normalized basis functions a given node distance apart,
one column per unit subdomain. -/
def qparts : List (List ℚ) :=
  [[0.11250, 0.63750, 0.63750, 0.11250],
   [0.00000, 0.13125, -0.54375, 0.13125],
   [0.00000, 0.00000, -0.22500, -0.22500],
   [0.00000, 0.00000, 0.00000, -0.01875]]

/-- BSplineBase::qDelta: integral of the product of basis derivatives for
nodes m1, m2, restricted to the node domain 0..M, scaled by DX * alpha.
The source first swaps so that m1 <= m2 (modelled by a and b), returns 0
beyond distance 3, and otherwise sums table entries over the clipped range
max(m1-2,0) <= m < min(m1+2, M). -/
def qDelta (p : BSplineState) (m1 m2 : ℤ) : ℚ :=
  let a := if m2 < m1 then m2 else m1
  let b := if m2 < m1 then m1 else m2
  if 3 < b - a then 0
  else (isum (max (a - 2) 0) (min (a + 2) p.M)
        (fun m => (qparts.getD (b - a).toNat []).getD (m - a + 2).toNat 0)) * p.DX * p.alpha

/-- The unconditioned cubic kernel part of BSplineBase::Basis (everything
before the boundary-condition addend): with z = abs(x - xm)/DX, zero when
z >= 2, else 0.25*(2-z)^3 minus (1-z)^3 when 1-z > 0. -/
def BasisRaw (p : BSplineState) (m : ℤ) (x : ℚ) : ℚ :=
  let xm := p.xmin + m * p.DX
  let z := |x - xm| / p.DX
  if z < 2 then
    let z1 := 2 - z
    let y := 0.25 * (z1 * z1 * z1)
    let z2 := z1 - 1
    if 0 < z2 then y - z2 * z2 * z2 else y
  else 0

/-- BSplineBase::Basis with an explicit fuel parameter for the recursive
boundary-correction calls (m in {0,1} adds Beta(m)*Basis(-1,x); m in
{M-1,M} adds Beta(m)*Basis(M+1,x)).  Fuel 0 returns 0; the termination
theorem shows the recursion depth is at most one when M >= 1, so any fuel
>= 2 computes the function the source computes. -/
def BasisF (p : BSplineState) : ℕ → ℤ → ℚ → ℚ
  | 0, _, _ => 0
  | fuel + 1, m, x =>
    let y := BasisRaw p m x
    if m = 0 ∨ m = 1 then y + Beta p m * BasisF p fuel (-1) x
    else if m = p.M - 1 ∨ m = p.M then y + Beta p m * BasisF p fuel (p.M + 1) x
    else y

/-- BSplineBase::Basis (fuel 2 suffices: recursion depth <= 1 for M >= 1). -/
def Basis (p : BSplineState) (m : ℤ) (x : ℚ) : ℚ := BasisF p 2 m x

/-- The system matrix, modelled as a total function on integer indices. -/
abbrev Mat := ℤ → ℤ → ℚ

/-- Single element assignment Q[i][j] = v. -/
def Mat.upd (Q : Mat) (i j : ℤ) (v : ℚ) : Mat :=
  fun a b => if a = i ∧ b = j then v else Q a b

/-- Symmetry of a matrix: Q[i][j] = Q[j][i] for all index pairs. -/
def Mat.Symm (Q : Mat) : Prop := ∀ i j, Q i j = Q j i

/-- The paired assignment `Q[j][i] = (Q[i][j] = v)` the source uses to keep
the matrix symmetric (also used for `Q[j][i] = (Q[i][j] += q)` with
v = Q i j + q). -/
def setSymPair (Q : Mat) (i j : ℤ) (v : ℚ) : Mat := (Q.upd i j v).upd j i v

/-- The paired accumulation `P[m][n] += s; P[n][m] += s` in addP. -/
def addPpair (Q : Mat) (m n : ℤ) (s : ℚ) : Mat :=
  let Q1 := Q.upd m n (Q m n + s)
  Q1.upd n m (Q1 n m + s)

/-- First pass of BSplineBase::calculateQ: for i = 0..M set the diagonal
Q[i][i] = qDelta(i,i) and, for j = 1..3 while i+j <= M (the C loop exits at
the first j with i+j > M, which equals guarding each j since the bound is
monotone in j), the paired off-diagonals Q[i][i+j] = Q[i+j][i] =
qDelta(i,i+j). -/
def qDiagPass (p : BSplineState) (Q : Mat) : Mat :=
  (intRange 0 p.M).foldl (fun Q i =>
    (intRange 1 3).foldl (fun Q j =>
      if i + j ≤ p.M then setSymPair Q i (i + j) (qDelta p i (i + j)) else Q)
      (Q.upd i i (qDelta p i i))) Q

/-- Upper-left boundary corrections of calculateQ: i = 0..1, j = i..i+3,
q = [i+1<4] b2*qDelta(-1,i) + [j+1<4] b1*qDelta(-1,j) + b1*b2*qDelta(-1,-1),
stored by `Q[j][i] = (Q[i][j] += q)`. -/
def qUpperLeft (p : BSplineState) (Q : Mat) : Mat :=
  (intRange 0 1).foldl (fun Q i =>
    let b1 := Beta p i
    (intRange i (i + 3)).foldl (fun Q j =>
      let b2 := Beta p j
      let q := (if i + 1 < 4 then b2 * qDelta p (-1) i else 0)
             + (if j + 1 < 4 then b1 * qDelta p (-1) j else 0)
             + b1 * b2 * qDelta p (-1) (-1)
      setSymPair Q i j (Q i j + q)) Q) Q

/-- Lower-right boundary corrections of calculateQ: i = M-1..M, j = i-3..i,
q = [M+1-i<4] b2*qDelta(i,M+1) + [M+1-j<4] b1*qDelta(j,M+1)
  + b1*b2*qDelta(M+1,M+1), stored by `Q[j][i] = (Q[i][j] += q)`. -/
def qLowerRight (p : BSplineState) (Q : Mat) : Mat :=
  (intRange (p.M - 1) p.M).foldl (fun Q i =>
    let b1 := Beta p i
    (intRange (i - 3) i).foldl (fun Q j =>
      let b2 := Beta p j
      let q := (if p.M + 1 - i < 4 then b2 * qDelta p i (p.M + 1) else 0)
             + (if p.M + 1 - j < 4 then b1 * qDelta p j (p.M + 1) else 0)
             + b1 * b2 * qDelta p (p.M + 1) (p.M + 1)
      setSymPair Q i j (Q i j + q)) Q) Q

/-- BSplineBase::calculateQ: zero the (M+1)x(M+1) matrix, stop if alpha = 0,
else fill the band and apply both boundary corrections. -/
def calculateQ (p : BSplineState) : Mat :=
  if p.alpha = 0 then fun _ _ => 0
  else qLowerRight p (qUpperLeft p (qDiagPass p (fun _ _ => 0)))

/-- BSplineBase::addP: for each sample x, with mi = (int)((x - xmin)/DX),
accumulate basis products into the matrix holding Q.  The C loop header is
`for (m = max(0, m-2); m <= min(M, m+2); ++m)`: the bound min(M, m+2) reads
the mutated loop variable m, so the condition reduces to m <= M and the
loop runs from max(0, mi-2) through M.  Inner loop: n = m+1..min(M, m+3),
with P[m][m] += Basis(m,x)^2 and the paired accumulation for (m,n). -/
def addP (p : BSplineState) (X : List ℚ) (Q0 : Mat) : Mat :=
  X.foldl (fun Q x =>
    (intRange (max 0 (ctrunc ((x - p.xmin) / p.DX) - 2)) p.M).foldl (fun Q m =>
      (intRange (m + 1) (min p.M (m + 3))).foldl (fun Q n =>
        addPpair Q m n (Basis p m x * Basis p n x))
        (Q.upd m m (Q m m + Basis p m x * Basis p m x))) Q) Q0

/-- The xmin/xmax linear scan at the top of BSplineBase::Setup:
`if (X[i] < xmin) xmin = X[i]; else if (X[i] > xmax) xmax = X[i];`. -/
def scanMM (l : List ℚ) (mm : ℚ × ℚ) : ℚ × ℚ :=
  l.foldl (fun mm xi => if xi < mm.1 then (xi, mm.2) else if mm.2 < xi then (mm.1, xi) else mm) mm

/-- Domain minimum as Setup computes it (scan seeded with X[0]). -/
def xminOf : List ℚ → ℚ
  | [] => 0
  | x :: r => (scanMM r (x, x)).1

/-- Domain maximum as Setup computes it (scan seeded with X[0]). -/
def xmaxOf : List ℚ → ℚ
  | [] => 0
  | x :: r => (scanMM r (x, x)).2

/-- The coarse grid-search loop of BSplineBase::Setup:
`do { if (!Ratio(++ni, deltax, ratiof)) return false; } while (ratiof > 2.0);`
with Ratio computing deltax = (xmax-xmin)/ni, ratiof = deltax/wl and
returning ratiod = NX/(ni+1) >= 1.  Returns the final ni.  Fuel bounds the
iteration count; ratiod < 1 forces failure once ni >= NX, so fuel NX+2 is
never exhausted from the starting point ni = 9. -/
def loop1 (xmn xmx wl : ℚ) (NX : ℕ) : ℕ → ℤ → Option ℤ
  | 0, _ => none
  | fuel + 1, ni =>
    let ni1 := ni + 1
    let deltax := (xmx - xmn) / (ni1 : ℚ)
    let rf := deltax / wl
    let rd := (NX : ℚ) / ((ni1 : ℚ) + 1)
    if rd < 1 then none
    else if 2 < rf then loop1 xmn xmx wl NX fuel ni1
    else some ni1

/-- The refinement loop of BSplineBase::Setup:
`do { if (!Ratio(++ni,...) || ratiof > 15.0) { Ratio(--ni,...); break; } }
while (ratiof < 4 || ratiod > 2.0);`  Returns the final (ni, deltax); on the
break path deltax is recomputed at the decremented ni. -/
def loop2 (xmn xmx wl : ℚ) (NX : ℕ) : ℕ → ℤ → ℤ × ℚ
  | 0, ni => (ni, (xmx - xmn) / (ni : ℚ))
  | fuel + 1, ni =>
    let ni1 := ni + 1
    let deltax := (xmx - xmn) / (ni1 : ℚ)
    let rf := deltax / wl
    let rd := (NX : ℚ) / ((ni1 : ℚ) + 1)
    if rd < 1 ∨ 15 < rf then (ni, (xmx - xmn) / (ni : ℚ))
    else if rf < 4 ∨ 2 < rd then loop2 xmn xmx wl NX fuel ni1
    else (ni1, deltax)

/-- BSplineBase::Setup.  Returns some (M, DX) on success, none on failure.
The empty-list guard reflects that setDomain guarantees NX >= 1 before
Setup reads X[0].  Fails when wl > xmax - xmin; with wl = 0 uses M = NX,
DX = (xmax-xmin)/NX; otherwise runs the two grid-search loops from ni = 9. -/
def setup (X : List ℚ) (wl : ℚ) : Option (ℤ × ℚ) :=
  if X.isEmpty then none
  else
    let xmn := xminOf X
    let xmx := xmaxOf X
    if xmx - xmn < wl then none
    else if wl = 0 then some ((X.length : ℤ), (xmx - xmn) / (X.length : ℚ))
    else
      match loop1 xmn xmx wl X.length (X.length + 2) 9 with
      | none => none
      | some ni => some (loop2 xmn xmx wl X.length (X.length + 2) ni)

/-- BSplineBase::setDomain through its Setup stage: none when the argument
validation `nx <= 0 || x == 0 || wl < 0 || bc < 0 || bc > 2` rejects, or
when Setup fails; some (M, DX) when the pipeline proceeds to matrix
assembly and factorization (the latter is external code, BSplineLU.h).
The sample count nx of the C interface is X.length; the null-pointer case
is the xnull flag. -/
def setDomainPasses (xnull : Bool) (X : List ℚ) (wl : ℚ) (bc : ℤ) : Option (ℤ × ℚ) :=
  if (X.length : ℤ) ≤ 0 ∨ xnull = true ∨ wl < 0 ∨ bc < 0 ∨ 2 < bc then none
  else setup X wl

/-- The effect of BSplineBase::setDomain on the OK flag.  The argument
validation returns false before the line `OK = false` executes, so it
leaves OK at its previous value; after validation OK is first cleared, and
set true only when Setup and the factorization both succeed.  factorOK
abstracts the external banded LU factorization (BSplineLU.h, not in src):
per the spec it may fail on a singular matrix, and OK is true only if it
succeeds. -/
def setDomainOKFlag (prevOK : Bool) (xnull : Bool) (X : List ℚ) (wl : ℚ) (bc : ℤ)
    (factorOK : Bool) : Bool :=
  if (X.length : ℤ) ≤ 0 ∨ xnull = true ∨ wl < 0 ∨ bc < 0 ∨ 2 < bc then prevOK
  else
    match setup X wl with
    | none => false
    | some _ => factorOK

/-- The mean computation in BSpline::BSpline: sum of y over NX samples,
divided by NX. -/
def fitMean (y : List ℚ) : ℚ := y.sum / (y.length : ℚ)

/-- The right-hand-side assembly in BSpline::BSpline:
B[m] = sum over j of (y[j] - mean) * Basis(m, X[j]).  The data vector y has
length NX by the fit contract; the zip pairs y[j] with X[j]. -/
def fitB (p : BSplineState) (X y : List ℚ) (mean : ℚ) (m : ℤ) : ℚ :=
  ((y.zip X).map (fun pr => (pr.1 - mean) * Basis p m pr.2)).sum

/-- Pointwise update of a coefficient vector modelled as a function. -/
def fupd (b : ℕ → ℚ) (i : ℕ) (v : ℚ) : ℕ → ℚ := fun k => if k = i then v else b k

/-- Exchange of two entries of a coefficient vector (pivot row swap). -/
def fswap (b : ℕ → ℚ) (i j : ℕ) : ℕ → ℚ :=
  fun k => if k = i then b j else if k = j then b i else b k

/-- Modelled from the spec: LU_solve_banded of BSplineLU.h is not part of
src; the spec describes it as the external banded solve
`solveBanded(matrix, pivotIndices, rhs) -> coefficients | failure` applied
to the half-bandwidth-3 LU factors.  Modelled as the standard banded
forward substitution with pivot row swaps followed by banded back
substitution. -/
def LU_solve_banded (n : ℕ) (LU : Mat) (piv : ℕ → ℕ) (b : ℕ → ℚ) : ℕ → ℚ :=
  let fwd := (List.range n).foldl (fun b i =>
    let b1 := fswap b i (piv i)
    (List.range 3).foldl (fun b k =>
      let j := i + k + 1
      if j < n then fupd b j (b j - LU (j : ℤ) (i : ℤ) * b i) else b) b1) b
  (List.range n).foldr (fun i b =>
    fupd b i ((b i - nsum (i + 1) (min n (i + 4)) (fun j => LU (i : ℤ) (j : ℤ) * b j))
      / LU (i : ℤ) (i : ℤ))) fwd

/-- The coefficient vector solved for in BSpline::BSpline: the banded LU
solve applied to the assembled right-hand side B. -/
def fitA (p : BSplineState) (X y : List ℚ) (n : ℕ) (LU : Mat) (piv : ℕ → ℕ) : ℕ → ℚ :=
  LU_solve_banded n LU piv (fun m => fitB p X y (fitMean y) (m : ℤ))

/-- BSpline::coefficient: A[n] when OK and 0 <= n <= M, else 0. -/
def coefficient (OK : Bool) (M : ℤ) (A : ℕ → ℚ) (n : ℤ) : ℚ :=
  if OK then (if 0 ≤ n ∧ n ≤ M then A n.toNat else 0) else 0

/-- BSpline::evaluate: 0 when not OK, else mean plus the basis expansion. -/
def evaluate (OK : Bool) (p : BSplineState) (A : ℕ → ℚ) (mean : ℚ) (x : ℚ) : ℚ :=
  if OK then isum 0 (p.M + 1) (fun i => A i.toNat * Basis p i x) + mean else 0

/-- BSpline::curve: a null pointer (none) when not OK, else the spline
evaluated at the node positions xmin + n*DX for n = 0..M. -/
def curve (OK : Bool) (p : BSplineState) (A : ℕ → ℚ) (mean : ℚ) : Option (List ℚ) :=
  if OK then
    some ((List.range (p.M + 1).toNat).map (fun n => evaluate OK p A mean (p.xmin + (n : ℚ) * p.DX)))
  else none

/-- The end-to-end scenario samples X = [0,1,...,9]. -/
def X10 : List ℚ := [0, 1, 2, 3, 4, 5, 6, 7, 8, 9]

/-- For M >= 1 the left ghost index -1 matches no boundary branch of Basis,
so the call Basis(-1, x) does not recurse further. -/
theorem basisF_ghost_left (p : BSplineState) (hM : 1 ≤ p.M) (f : ℕ) (x : ℚ) :
    BasisF p (f + 1) (-1) x = BasisRaw p (-1) x := by
  simp only [BasisF]
  rw [if_neg (by omega), if_neg (by omega)]

/-- For M >= 1 the right ghost index M+1 matches no boundary branch of
Basis, so the call Basis(M+1, x) does not recurse further. -/
theorem basisF_ghost_right (p : BSplineState) (hM : 1 ≤ p.M) (f : ℕ) (x : ℚ) :
    BasisF p (f + 1) (p.M + 1) x = BasisRaw p (p.M + 1) x := by
  simp only [BasisF]
  rw [if_neg (by omega), if_neg (by omega)]

/-- For M >= 1 the recursion of Basis has depth at most one: any fuel of
the form f+2 gives the fuel-2 value. -/
theorem basisF_depth_one (p : BSplineState) (hM : 1 ≤ p.M) (f : ℕ) (m : ℤ) (x : ℚ) :
    BasisF p (f + 2) m x = BasisF p 2 m x := by
  have gl2 : BasisF p (f + 2) m x =
      (if m = 0 ∨ m = 1 then BasisRaw p m x + Beta p m * BasisF p (f + 1) (-1) x
       else if m = p.M - 1 ∨ m = p.M then
         BasisRaw p m x + Beta p m * BasisF p (f + 1) (p.M + 1) x
       else BasisRaw p m x) := rfl
  have gr2 : BasisF p 2 m x =
      (if m = 0 ∨ m = 1 then BasisRaw p m x + Beta p m * BasisF p 1 (-1) x
       else if m = p.M - 1 ∨ m = p.M then
         BasisRaw p m x + Beta p m * BasisF p 1 (p.M + 1) x
       else BasisRaw p m x) := rfl
  have e1 : BasisF p (f + 1) (-1) x = BasisRaw p (-1) x := basisF_ghost_left p hM f x
  have e2 : BasisF p (f + 1) (p.M + 1) x = BasisRaw p (p.M + 1) x := basisF_ghost_right p hM f x
  have e3 : BasisF p 1 (-1) x = BasisRaw p (-1) x := basisF_ghost_left p hM 0 x
  have e4 : BasisF p 1 (p.M + 1) x = BasisRaw p (p.M + 1) x := basisF_ghost_right p hM 0 x
  rw [gl2, gr2, e1, e2, e3, e4]

/-- C10: Basis(m, x) terminates for every m and x whenever M >= 1: the
boundary-correction recursion only ever reaches the ghost indices -1 and
M+1, neither of which matches a boundary branch again when M >= 1, so the
recursion depth is at most one and every fuel >= 2 computes the same value
as the reference Basis. -/
theorem basis_terminates (p : BSplineState) (hM : 1 ≤ p.M) (fuel : ℕ) (hf : 2 ≤ fuel)
    (m : ℤ) (x : ℚ) :
    BasisF p fuel (-1) x = BasisRaw p (-1) x ∧
    BasisF p fuel (p.M + 1) x = BasisRaw p (p.M + 1) x ∧
    BasisF p fuel m x = Basis p m x := by
  obtain ⟨f, rfl⟩ : ∃ f, fuel = f + 2 := ⟨fuel - 2, by omega⟩
  refine ⟨basisF_ghost_left p hM (f + 1) x, basisF_ghost_right p hM (f + 1) x, ?_⟩
  exact basisF_depth_one p hM f m x

/-- Witness for basis_terminates at a concrete configuration. -/
theorem basis_terminates_witness :
    (1 ≤ (BSplineState.mk 2 0 1 1 1).M ∧ 2 ≤ 5) ∧
    (BasisF (BSplineState.mk 2 0 1 1 1) 5 (-1) (1/2) =
       BasisRaw (BSplineState.mk 2 0 1 1 1) (-1) (1/2) ∧
     BasisF (BSplineState.mk 2 0 1 1 1) 5 ((BSplineState.mk 2 0 1 1 1).M + 1) (1/2) =
       BasisRaw (BSplineState.mk 2 0 1 1 1) ((BSplineState.mk 2 0 1 1 1).M + 1) (1/2) ∧
     BasisF (BSplineState.mk 2 0 1 1 1) 5 0 (1/2) = Basis (BSplineState.mk 2 0 1 1 1) 0 (1/2)) :=
  ⟨⟨by decide, by decide⟩,
   basis_terminates (BSplineState.mk 2 0 1 1 1) (by decide) 5 (by decide) 0 (1/2)⟩

/-- C8: qDelta is symmetric in its node arguments, and vanishes whenever
the nodes are more than 3 apart. -/
theorem qDelta_symmetric_banded (p : BSplineState) (m1 m2 : ℤ) :
    qDelta p m1 m2 = qDelta p m2 m1 ∧ (3 < |m1 - m2| → qDelta p m1 m2 = 0) := by
  constructor
  · rcases lt_trichotomy m1 m2 with h | h | h
    · simp only [qDelta, if_pos h, if_neg (lt_asymm h)]
    · subst h; rfl
    · simp only [qDelta, if_pos h, if_neg (lt_asymm h)]
  · intro h
    simp only [qDelta]
    split_ifs with hs hb hb
    · rfl
    · exfalso
      rw [abs_of_pos (sub_pos.mpr hs)] at h
      omega
    · rfl
    · exfalso
      rw [abs_of_nonpos (sub_nonpos.mpr (not_lt.mp hs))] at h
      omega

/-- Witness for qDelta_symmetric_banded: the band hypothesis holds at the
node pair (0, 5) and the value there is 0. -/
theorem qDelta_symmetric_banded_witness :
    3 < |(0 : ℤ) - 5| ∧ qDelta (BSplineState.mk 10 0 1 1 0) 0 5 = 0 :=
  ⟨by decide, (qDelta_symmetric_banded (BSplineState.mk 10 0 1 1 0) 0 5).2 (by decide)⟩

/-- C3: setDomain reports failure whenever the sample count is <= 0, the
sample pointer is null, the wavelength is negative, the boundary type is
outside 0..2, or the wavelength exceeds the domain span xmax - xmin. -/
theorem setDomain_failure_conditions (xnull : Bool) (X : List ℚ) (wl : ℚ) (bc : ℤ)
    (h : (X.length : ℤ) ≤ 0 ∨ xnull = true ∨ wl < 0 ∨ bc < 0 ∨ 2 < bc ∨
         xmaxOf X - xminOf X < wl) :
    setDomainPasses xnull X wl bc = none := by
  unfold setDomainPasses
  by_cases hv : (X.length : ℤ) ≤ 0 ∨ xnull = true ∨ wl < 0 ∨ bc < 0 ∨ 2 < bc
  · rw [if_pos hv]
  · rw [if_neg hv]
    have hspan : xmaxOf X - xminOf X < wl := by tauto
    simp only [setup]
    by_cases he : X.isEmpty
    · rw [if_pos he]
    · rw [if_neg he, if_pos hspan]

/-- Witness for setDomain_failure_conditions: wavelength 5 exceeds the span
of the samples [1, 2]. -/
theorem setDomain_failure_conditions_witness :
    ((([(1:ℚ), 2].length : ℤ) ≤ 0 ∨ false = true ∨ (5:ℚ) < 0 ∨ (0:ℤ) < 0 ∨ 2 < (0:ℤ) ∨
      xmaxOf [(1:ℚ), 2] - xminOf [(1:ℚ), 2] < 5) ∧
     setDomainPasses false [(1:ℚ), 2] 5 0 = none) :=
  ⟨by norm_num [xmaxOf, xminOf, scanMM],
   setDomain_failure_conditions false [(1:ℚ), 2] 5 0 (by norm_num [xmaxOf, xminOf, scanMM])⟩

/-- C5 counterexample: for X = [0..9], wavelength 3, boundary type 0, the
configuration does NOT succeed: the very first grid-search candidate
ni = 10 has ratiod = 10/11 < 1, so Setup fails the density check. -/
theorem grid_search_scenario_counterexample :
    ¬ ∃ M DX, setDomainPasses false X10 3 0 = some (M, DX) ∧ 9 ≤ M := by
  have h1 : xminOf X10 = 0 := by norm_num [xminOf, X10, scanMM]
  have h2 : xmaxOf X10 = 9 := by norm_num [xmaxOf, X10, scanMM]
  have hnone : setDomainPasses false X10 3 0 = none := by
    norm_num [setDomainPasses, setup, h1, h2, X10, loop1]
  rintro ⟨M, DX, h3, -⟩
  rw [hnone] at h3
  exact Option.noConfusion h3

/-- C5 amended: configure on X = [0..9] with wavelength 3 fails: the coarse
grid-search loop fails its data-density check (ratiod = 10/11 < 1) at its
first candidate ni = 10. -/
theorem grid_search_scenario_fails :
    setDomainPasses false X10 3 0 = none ∧ loop1 0 9 3 10 12 9 = none := by
  have h1 : xminOf X10 = 0 := by norm_num [xminOf, X10, scanMM]
  have h2 : xmaxOf X10 = 9 := by norm_num [xmaxOf, X10, scanMM]
  constructor
  · norm_num [setDomainPasses, setup, h1, h2, X10, loop1]
  · norm_num [loop1]

/-- C6: evaluating Setup at the all-equal sample array [5, 5] with
wavelength 0: the configuration is accepted with M = 2 but DX = 0,
violating the claimed invariant DX > 0 (the downstream basis evaluation
then divides by zero). -/
theorem setup_accepts_equal_samples :
    setDomainPasses false [(5:ℚ), 5] 0 0 = some (2, 0) := by
  norm_num [setDomainPasses, setup, xminOf, xmaxOf, scanMM]

/-- C9: on a configuration that is not ready (OK = false), evaluate
returns 0 for every x, coefficient returns 0 for every index, and curve
returns the absent result. -/
theorem not_ready_sentinels (p : BSplineState) (A : ℕ → ℚ) (mean x : ℚ) (nn : ℤ) :
    evaluate false p A mean x = 0 ∧ coefficient false p.M A nn = 0 ∧
    curve false p A mean = none :=
  ⟨rfl, rfl, rfl⟩

/-- Unfolding of the min/max scan over one list element. -/
theorem scanMM_cons (x : ℚ) (t : List ℚ) (mm : ℚ × ℚ) :
    scanMM (x :: t) mm =
      scanMM t (if x < mm.1 then (x, mm.2) else if mm.2 < x then (mm.1, x) else mm) := rfl

/-- The min/max scan keeps the pair ordered, only widens it, bounds every
scanned element, and each component is either the seed or a list element. -/
theorem scanMM_spec (l : List ℚ) : ∀ a b : ℚ, a ≤ b →
    (scanMM l (a, b)).1 ≤ (scanMM l (a, b)).2 ∧
    (scanMM l (a, b)).1 ≤ a ∧ b ≤ (scanMM l (a, b)).2 ∧
    (∀ x ∈ l, (scanMM l (a, b)).1 ≤ x ∧ x ≤ (scanMM l (a, b)).2) ∧
    ((scanMM l (a, b)).1 = a ∨ (scanMM l (a, b)).1 ∈ l) ∧
    ((scanMM l (a, b)).2 = b ∨ (scanMM l (a, b)).2 ∈ l) := by
  induction l with
  | nil =>
    intro a b hab
    refine ⟨hab, le_refl a, le_refl b, ?_, Or.inl rfl, Or.inl rfl⟩
    intro x hx
    cases hx
  | cons x t ih =>
    intro a b hab
    rw [scanMM_cons]
    by_cases h1 : x < a
    · rw [if_pos h1]
      obtain ⟨o1, o2, o3, o4, o5, o6⟩ := ih x b (le_trans (le_of_lt h1) hab)
      refine ⟨o1, le_trans o2 (le_of_lt h1), o3, ?_, ?_, ?_⟩
      · intro y hy
        rcases List.mem_cons.mp hy with rfl | hy
        · exact ⟨o2, le_trans (le_of_lt h1) (le_trans hab o3)⟩
        · exact o4 y hy
      · rcases o5 with h | h
        · refine Or.inr ?_
          rw [h]
          exact List.mem_cons_self x t
        · exact Or.inr (List.mem_cons_of_mem x h)
      · rcases o6 with h | h
        · exact Or.inl h
        · exact Or.inr (List.mem_cons_of_mem x h)
    · rw [if_neg h1]
      by_cases h2 : b < x
      · rw [if_pos h2]
        obtain ⟨o1, o2, o3, o4, o5, o6⟩ := ih a x (le_trans hab (le_of_lt h2))
        refine ⟨o1, o2, le_trans (le_of_lt h2) o3, ?_, ?_, ?_⟩
        · intro y hy
          rcases List.mem_cons.mp hy with rfl | hy
          · exact ⟨le_trans o2 (not_lt.mp h1), o3⟩
          · exact o4 y hy
        · rcases o5 with h | h
          · exact Or.inl h
          · exact Or.inr (List.mem_cons_of_mem x h)
        · rcases o6 with h | h
          · refine Or.inr ?_
            rw [h]
            exact List.mem_cons_self x t
          · exact Or.inr (List.mem_cons_of_mem x h)
      · rw [if_neg h2]
        obtain ⟨o1, o2, o3, o4, o5, o6⟩ := ih a b hab
        refine ⟨o1, o2, o3, ?_, ?_, ?_⟩
        · intro y hy
          rcases List.mem_cons.mp hy with rfl | hy
          · exact ⟨le_trans o2 (not_lt.mp h1), le_trans (not_lt.mp h2) o3⟩
          · exact o4 y hy
        · rcases o5 with h | h
          · exact Or.inl h
          · exact Or.inr (List.mem_cons_of_mem x h)
        · rcases o6 with h | h
          · exact Or.inl h
          · exact Or.inr (List.mem_cons_of_mem x h)

/-- On a nonempty list the scanned minimum is at most the scanned maximum. -/
theorem xminOf_le_xmaxOf (x : ℚ) (t : List ℚ) : xminOf (x :: t) ≤ xmaxOf (x :: t) :=
  (scanMM_spec t x x (le_refl x)).1

/-- C2: configure with wavelength 0 (and a valid boundary type) always
passes validation and Setup, yielding exactly M = NX node intervals and
spacing DX = (xmax - xmin)/NX, where xminOf X and xmaxOf X are the minimum
and maximum of the samples (they bound every sample and are themselves
samples). -/
theorem zero_wavelength_grid (X : List ℚ) (bc : ℤ) (hX : X ≠ []) (hbc : 0 ≤ bc ∧ bc ≤ 2) :
    setDomainPasses false X 0 bc =
      some ((X.length : ℤ), (xmaxOf X - xminOf X) / (X.length : ℚ)) ∧
    (∀ a ∈ X, xminOf X ≤ a ∧ a ≤ xmaxOf X) ∧ xminOf X ∈ X ∧ xmaxOf X ∈ X := by
  obtain ⟨x, t, rfl⟩ : ∃ x t, X = x :: t := by
    cases X with
    | nil => exact absurd rfl hX
    | cons x t => exact ⟨x, t, rfl⟩
  obtain ⟨o1, o2, o3, o4, o5, o6⟩ := scanMM_spec t x x (le_refl x)
  have hspan : ¬ (xmaxOf (x :: t) - xminOf (x :: t) < 0) :=
    not_lt.mpr (sub_nonneg.mpr (xminOf_le_xmaxOf x t))
  constructor
  · unfold setDomainPasses
    rw [if_neg ?hv]
    case hv =>
      rintro (h | h | h | h | h)
      · simp at h
        omega
      · exact Bool.false_ne_true h
      · exact absurd h (by norm_num)
      · omega
      · omega
    unfold setup
    rw [if_neg (by simp), if_neg hspan, if_pos rfl]
  · refine ⟨?_, ?_, ?_⟩
    · intro a ha
      rcases List.mem_cons.mp ha with rfl | ha
      · exact ⟨o2, o3⟩
      · exact o4 a ha
    · rcases o5 with h | h
      · have hm : xminOf (x :: t) = x := h
        rw [hm]
        exact List.mem_cons_self x t
      · exact List.mem_cons_of_mem x h
    · rcases o6 with h | h
      · have hm : xmaxOf (x :: t) = x := h
        rw [hm]
        exact List.mem_cons_self x t
      · exact List.mem_cons_of_mem x h

/-- Witness for zero_wavelength_grid on the samples [3, 1, 2]. -/
theorem zero_wavelength_grid_witness :
    (([(3:ℚ), 1, 2] ≠ []) ∧ (0 ≤ (0:ℤ) ∧ (0:ℤ) ≤ 2)) ∧
    (setDomainPasses false [(3:ℚ), 1, 2] 0 0 =
       some (([(3:ℚ), 1, 2].length : ℤ),
         (xmaxOf [(3:ℚ), 1, 2] - xminOf [(3:ℚ), 1, 2]) / ([(3:ℚ), 1, 2].length : ℚ)) ∧
     (∀ a ∈ [(3:ℚ), 1, 2], xminOf [(3:ℚ), 1, 2] ≤ a ∧ a ≤ xmaxOf [(3:ℚ), 1, 2]) ∧
     xminOf [(3:ℚ), 1, 2] ∈ [(3:ℚ), 1, 2] ∧ xmaxOf [(3:ℚ), 1, 2] ∈ [(3:ℚ), 1, 2]) :=
  ⟨⟨by simp, by simp⟩, zero_wavelength_grid [(3:ℚ), 1, 2] 0 (by simp) (by simp)⟩

/-- C7 counterexample: a failing configure call (sample count 0, a listed
ConfigError) on a previously ready object: the call fails (the pipeline
rejects it) yet the OK flag keeps its previous value true, because the
argument validation returns before the line `OK = false` runs. -/
theorem config_error_keeps_ok_counterexample :
    setDomainPasses false ([] : List ℚ) 0 0 = none ∧
    setDomainOKFlag true false ([] : List ℚ) 0 0 true = true := by
  constructor
  · rfl
  · rfl

/-- C7 amended: a ConfigError detected after argument validation (Setup
failure) or a factorization failure leaves OK false; argument-validation
failures return false without touching OK. -/
theorem config_error_after_validation_not_ready (prevOK xnull : Bool) (X : List ℚ)
    (wl : ℚ) (bc : ℤ) (factorOK : Bool)
    (h1 : ¬ ((X.length : ℤ) ≤ 0 ∨ xnull = true ∨ wl < 0 ∨ bc < 0 ∨ 2 < bc))
    (h2 : setup X wl = none ∨ factorOK = false) :
    setDomainOKFlag prevOK xnull X wl bc factorOK = false := by
  unfold setDomainOKFlag
  rw [if_neg h1]
  rcases h2 with h2 | h2
  · rw [h2]
  · cases setup X wl with
    | none => rfl
    | some v => exact h2

/-- Witness for config_error_after_validation_not_ready: wavelength 5
exceeds the span of [1, 2], so Setup fails and OK ends false. -/
theorem config_error_after_validation_not_ready_witness :
    (¬ ((([(1:ℚ), 2]).length : ℤ) ≤ 0 ∨ false = true ∨ (5:ℚ) < 0 ∨ (0:ℤ) < 0 ∨ 2 < (0:ℤ)) ∧
     setup [(1:ℚ), 2] 5 = none) ∧
    setDomainOKFlag true false [(1:ℚ), 2] 5 0 true = false :=
  ⟨⟨by norm_num, by norm_num [setup, xminOf, xmaxOf, scanMM]⟩,
   config_error_after_validation_not_ready true false [(1:ℚ), 2] 5 0 true (by norm_num)
     (Or.inl (by norm_num [setup, xminOf, xmaxOf, scanMM]))⟩

/-- A predicate preserved by every step of a left fold is preserved by the
whole fold. -/
theorem foldl_pres {α β : Type} {P : α → Prop} {f : α → β → α}
    (h : ∀ a b, P a → P (f a b)) : ∀ (l : List β) (a : α), P a → P (l.foldl f a) := by
  intro l
  induction l with
  | nil => intro a ha; exact ha
  | cons x t iht => intro a ha; exact iht (f a x) (h a x ha)

/-- A predicate preserved by every step of a right fold is preserved by the
whole fold. -/
theorem foldr_pres {α β : Type} {P : α → Prop} {f : β → α → α}
    (h : ∀ b a, P a → P (f b a)) : ∀ (l : List β) (a : α), P a → P (l.foldr f a) := by
  intro l
  induction l with
  | nil => intro a ha; exact ha
  | cons x t iht => intro a ha; exact h x (t.foldr f a) (iht a ha)

/-- A sum over naturals of an everywhere-zero function is zero. -/
theorem nsum_eq_zero (lo hi : ℕ) (f : ℕ → ℚ) (hf : ∀ k, f k = 0) : nsum lo hi f = 0 := by
  unfold nsum
  apply List.sum_eq_zero
  intro q hq
  rw [List.mem_map] at hq
  obtain ⟨k, -, rfl⟩ := hq
  exact hf (lo + k)

/-- The banded LU solve maps the zero right-hand side to the zero vector:
every substitution step preserves pointwise zero. -/
theorem LU_solve_banded_zero (n : ℕ) (LU : Mat) (piv : ℕ → ℕ) (b : ℕ → ℚ)
    (hb : ∀ k, b k = 0) : ∀ k, LU_solve_banded n LU piv b k = 0 := by
  unfold LU_solve_banded
  refine foldr_pres (P := fun v : ℕ → ℚ => ∀ k, v k = 0) ?_ _ _ ?_
  · intro i b hbi k
    unfold fupd
    by_cases hk : k = i
    · rw [if_pos hk, hbi i, nsum_eq_zero _ _ _ (fun j => by rw [hbi j, mul_zero])]
      norm_num
    · rw [if_neg hk]; exact hbi k
  · refine foldl_pres (P := fun v : ℕ → ℚ => ∀ k, v k = 0) ?_ _ _ hb
    intro b i hbi
    refine foldl_pres (P := fun v : ℕ → ℚ => ∀ k, v k = 0) ?_ _ _ ?_
    · intro b2 k hb2 k2
      dsimp only
      split
      · unfold fupd
        by_cases hk : k2 = i + k + 1
        · rw [if_pos hk, hb2, hb2, mul_zero, sub_zero]
        · rw [if_neg hk]; exact hb2 k2
      · exact hb2 k2
    · intro k
      unfold fswap
      split_ifs <;> exact hbi _

/-- C4: fitting a constant data vector (all NX samples equal to c) yields
mean = c, a zero right-hand side B, and a zero solved coefficient vector,
so every coefficient the caller can read is 0 and the fitted spline is the
constant through the mean term alone. -/
theorem constant_fit (p : BSplineState) (X : List ℚ) (c : ℚ) (LU : Mat) (piv : ℕ → ℕ)
    (hX : X ≠ []) :
    fitMean (List.replicate X.length c) = c ∧
    (∀ m : ℤ, fitB p X (List.replicate X.length c) (fitMean (List.replicate X.length c)) m = 0) ∧
    (∀ nn : ℤ,
      coefficient true p.M (fitA p X (List.replicate X.length c) (p.M + 1).toNat LU piv) nn
        = 0) := by
  have hlen : (X.length : ℚ) ≠ 0 := by
    have h0 : X.length ≠ 0 := fun h => hX (List.length_eq_zero.mp h)
    exact_mod_cast h0
  have hmean : fitMean (List.replicate X.length c) = c := by
    unfold fitMean
    rw [List.length_replicate, List.sum_replicate, nsmul_eq_mul]
    exact mul_div_cancel_left₀ c hlen
  have hB : ∀ m : ℤ, fitB p X (List.replicate X.length c) c m = 0 := by
    intro m
    unfold fitB
    apply List.sum_eq_zero
    intro q hq
    rw [List.mem_map] at hq
    obtain ⟨⟨y1, x1⟩, hin, rfl⟩ := hq
    have hy1 : y1 = c := List.eq_of_mem_replicate (List.of_mem_zip hin).1
    rw [hy1]
    dsimp only
    rw [sub_self, zero_mul]
  have hA : ∀ k, fitA p X (List.replicate X.length c) (p.M + 1).toNat LU piv k = 0 := by
    unfold fitA
    apply LU_solve_banded_zero
    intro k
    rw [hmean]
    exact hB k
  refine ⟨hmean, ?_, ?_⟩
  · intro m; rw [hmean]; exact hB m
  · intro nn
    unfold coefficient
    by_cases hc : 0 ≤ nn ∧ nn ≤ p.M
    · rw [if_pos rfl, if_pos hc]; exact hA nn.toNat
    · rw [if_pos rfl, if_neg hc]

/-- Witness for constant_fit on samples [0, 1] with constant 7. -/
theorem constant_fit_witness :
    ([(0:ℚ), 1] ≠ []) ∧
    (fitMean (List.replicate [(0:ℚ), 1].length 7) = 7 ∧
     (∀ m : ℤ, fitB (BSplineState.mk 3 0 1 0 1) [(0:ℚ), 1]
        (List.replicate [(0:ℚ), 1].length 7)
        (fitMean (List.replicate [(0:ℚ), 1].length 7)) m = 0) ∧
     (∀ nn : ℤ,
       coefficient true (BSplineState.mk 3 0 1 0 1).M
         (fitA (BSplineState.mk 3 0 1 0 1) [(0:ℚ), 1]
           (List.replicate [(0:ℚ), 1].length 7)
           ((BSplineState.mk 3 0 1 0 1).M + 1).toNat (fun _ _ => 0) id) nn = 0)) :=
  ⟨by simp, constant_fit (BSplineState.mk 3 0 1 0 1) [(0:ℚ), 1] 7 (fun _ _ => 0) id (by simp)⟩

/-- The zero matrix is symmetric. -/
theorem symm_zero : Mat.Symm (fun _ _ => (0:ℚ)) := fun _ _ => rfl

/-- A diagonal assignment preserves symmetry. -/
theorem symm_upd_diag {Q : Mat} (h : Q.Symm) (i : ℤ) (v : ℚ) : (Q.upd i i v).Symm := by
  intro a b
  unfold Mat.upd
  split_ifs <;> first | rfl | exact h a b | tauto

/-- The paired assignment Q[j][i] = (Q[i][j] = v) preserves symmetry. -/
theorem symm_setSymPair {Q : Mat} (h : Q.Symm) (i j : ℤ) (v : ℚ) : (setSymPair Q i j v).Symm := by
  intro a b
  unfold setSymPair Mat.upd
  split_ifs <;> first | rfl | exact h a b | tauto

/-- The paired accumulation P[m][n] += s; P[n][m] += s preserves symmetry. -/
theorem symm_addPpair {Q : Mat} (h : Q.Symm) (m n : ℤ) (s : ℚ) : (addPpair Q m n s).Symm := by
  show ((Q.upd m n (Q m n + s)).upd n m ((Q.upd m n (Q m n + s)) n m + s)).Symm
  by_cases hmn : n = m
  · subst hmn
    exact symm_upd_diag (symm_upd_diag h n (Q n n + s)) n _
  · have hread : (Q.upd m n (Q m n + s)) n m = Q n m := by
      unfold Mat.upd
      rw [if_neg (fun hc => hmn hc.1)]
    rw [hread, h n m]
    exact symm_setSymPair h m n (Q m n + s)

/-- The band-filling pass of calculateQ preserves symmetry. -/
theorem qDiagPass_symm (p : BSplineState) {Q : Mat} (h : Q.Symm) : (qDiagPass p Q).Symm := by
  unfold qDiagPass
  refine foldl_pres ?_ _ _ h
  intro Q2 i hQ2
  refine foldl_pres ?_ _ _ (symm_upd_diag hQ2 i _)
  intro Q3 j hQ3
  dsimp only
  split
  · exact symm_setSymPair hQ3 _ _ _
  · exact hQ3

/-- The upper-left boundary pass of calculateQ preserves symmetry. -/
theorem qUpperLeft_symm (p : BSplineState) {Q : Mat} (h : Q.Symm) : (qUpperLeft p Q).Symm := by
  unfold qUpperLeft
  refine foldl_pres ?_ _ _ h
  intro Q2 i hQ2
  refine foldl_pres ?_ _ _ hQ2
  intro Q3 j hQ3
  exact symm_setSymPair hQ3 _ _ _

/-- The lower-right boundary pass of calculateQ preserves symmetry. -/
theorem qLowerRight_symm (p : BSplineState) {Q : Mat} (h : Q.Symm) : (qLowerRight p Q).Symm := by
  unfold qLowerRight
  refine foldl_pres ?_ _ _ h
  intro Q2 i hQ2
  refine foldl_pres ?_ _ _ hQ2
  intro Q3 j hQ3
  exact symm_setSymPair hQ3 _ _ _

/-- The assembled roughness matrix is symmetric. -/
theorem calculateQ_symm (p : BSplineState) : (calculateQ p).Symm := by
  unfold calculateQ
  split
  · exact symm_zero
  · exact qLowerRight_symm p (qUpperLeft_symm p (qDiagPass_symm p symm_zero))

/-- addP preserves symmetry of the matrix it accumulates into. -/
theorem addP_symm (p : BSplineState) (X : List ℚ) {Q : Mat} (h : Q.Symm) :
    (addP p X Q).Symm := by
  unfold addP
  refine foldl_pres ?_ _ _ h
  intro Q2 x hQ2
  refine foldl_pres ?_ _ _ hQ2
  intro Q3 m hQ3
  refine foldl_pres ?_ _ _ (symm_upd_diag hQ3 m _)
  intro Q4 n hQ4
  exact symm_addPpair hQ4 _ _ _

/-- C1: the assembled system matrix is symmetric: Q[i][j] = Q[j][i] for
all index pairs, both after calculateQ (including its boundary corrections
to the first two and last two rows and columns) and after addP has
accumulated every data sample; this holds for every configuration, in
particular every one setDomain accepts. -/
theorem systemMatrix_symmetric (p : BSplineState) (X : List ℚ) (i j : ℤ) :
    calculateQ p i j = calculateQ p j i ∧
    addP p X (calculateQ p) i j = addP p X (calculateQ p) j i :=
  ⟨calculateQ_symm p i j, addP_symm p X (calculateQ_symm p) i j⟩

end BSplineModel
